import Mathlib

/-
Verification of the nexus-zip container engine against its specification.

The definitions below are a shallow embedding of the final iteration of the
engine (src/hzf_readonly.py together with src/json_backed_dict.py; the spec
marks the other drafts as superseded).  Paths are modeled as lists of
components (the Python code manipulates slash-separated strings; components
are required to be nonempty and slash-free, so the two views coincide),
fallible calls return Except, and numpy scalars are modeled abstractly as
integers.
-/

namespace NexusZip

/-- JSON-compatible attribute values as stored by JSONBackedDict and read
back with json.loads.  The only JSON array the engine ever writes is the
shape (a list of numbers), modeled by the nums constructor. -/
inductive JVal where
  | null : JVal
  | boolean (b : Bool) : JVal
  | num (n : Int) : JVal
  | str (s : String) : JVal
  | nums (ns : List Int) : JVal
  deriving Repr, DecidableEq

/-- The Python exception kinds raised by the engine. -/
inductive PyErr where
  | keyError (msg : String)
  | typeError (msg : String)
  | indexError
  | nameError (name : String)
  | attributeError (name : String)
  | ioError
  | standardError (msg : String)
  | exception (msg : String)
  deriving Repr, DecidableEq

/-- A numpy array as far as the append and extend paths observe it: a shape,
a dtype name, and the flattened element values (scalars are modeled
abstractly as integers). -/
structure NpArray where
  shape : List Nat
  dtype : String
  payload : List Int
  deriving Repr, DecidableEq

/-- numpy astype as invoked by FieldFile.append (hzf_readonly.py line 486):
the chunk is converted to the stored dtype before writing.  On the abstract
scalar domain the element values are kept; the dtype tag changes. -/
def astype (dt : String) (a : NpArray) : NpArray :=
  { a with dtype := dt }

/-- The on-disk state of one field during a write session, as seen by
FieldFile.append and FieldFile.extend: the shape and dtype attributes (absent
keys give KeyError on direct indexing) and the data file content as the
sequence of chunks written so far (mode "a" appends a chunk after the
existing content). -/
structure FieldState where
  shape? : Option (List Nat)
  dtype? : Option String
  chunks : List NpArray
  deriving Repr, DecidableEq

/-- FieldFile.append from hzf_readonly.py (lines 472-491), write mode.
The shape gate compares the ENTIRE chunk shape with the stored trailing
dimensions; a dtype mismatch raises when coercion is off and converts via
astype otherwise; on success the leading stored dimension grows by one and
the chunk is written after the existing content (mode "a"). -/
def appendRW (f : FieldState) (data : NpArray) (coerce : Bool) :
    Except PyErr FieldState :=
  if data.shape ≠ (f.shape?.getD []).tail then
    .error (.exception "invalid shape to append")
  else
    match f.dtype? with
    | none => .error (.keyError "dtype")
    | some dt =>
      if data.dtype ≠ dt ∧ coerce = false then
        .error (.exception "dtypes do not match, and coerce is set to False")
      else
        let data' := if data.dtype ≠ dt then astype dt data else data
        match f.shape? with
        | none => .error (.keyError "shape")
        | some [] => .error .indexError
        | some (s0 :: rest) =>
          .ok { f with shape? := some ((s0 + 1) :: rest),
                       chunks := f.chunks ++ [data'] }

/-- FieldFile.extend from hzf_readonly.py (lines 493-509), write mode.
The shape gate compares the chunk TRAILING dimensions with the stored
trailing dimensions; the dtype check present in append is commented out in
the source, so the coerce flag is never consulted and the chunk is written
with its own dtype; on success the leading stored dimension grows by the
chunk leading dimension. -/
def extendRW (f : FieldState) (data : NpArray) (coerce : Bool) :
    Except PyErr FieldState :=
  if data.shape.tail ≠ (f.shape?.getD []).tail then
    .error (.exception "invalid shape to append")
  else
    match f.shape? with
    | none => .error (.keyError "shape")
    | some [] => .error .indexError
    | some (s0 :: rest) =>
      match data.shape with
      | [] => .error .indexError
      | d0 :: _ =>
        .ok { f with shape? := some ((s0 + d0) :: rest),
                     chunks := f.chunks ++ [data] }

/-- The endianness marker chosen by the FieldFile.value setter from the
byteorder attribute fixed at field creation (hzf_readonly.py line 455). -/
def endianMark (byteorder : String) : String :=
  if byteorder = "little" then "<" else ">"

/-- The format string computed by the FieldFile.value setter in
hzf_readonly.py (lines 455-457): endianness marker, dtype character code,
then dtype.itemsize, which numpy measures in BYTES. -/
def valueSetFormat (byteorder : String) (dtypeChar : String)
    (itemsize : Nat) : String :=
  endianMark byteorder ++ dtypeChar ++ toString itemsize

/-- The same computation in the superseded draft src/hzf.py (lines 475-477),
which multiplies the itemsize by 8 and hence records a bit width. -/
def valueSetFormatDraft (byteorder : String) (dtypeChar : String)
    (itemsize : Nat) : String :=
  endianMark byteorder ++ dtypeChar ++ toString (itemsize * 8)

/-- Modelled from the spec words, for comparison: a format string carrying
the element bit width (8 bits per byte of itemsize). -/
def specFormatBits (byteorder : String) (dtypeChar : String)
    (itemsize : Nat) : String :=
  endianMark byteorder ++ dtypeChar ++ toString (itemsize * 8)

/-- Decimal value of a digit list, used to read the width back out of a
format string the way numpy.dtype does when the stored format is parsed. -/
def parseDigits (cs : List Char) : Nat :=
  cs.foldl (fun acc c => acc * 10 + (c.toNat - 48)) 0

/-- The itemsize encoded in a format string: the numeric run of the string
(our formats are marker, one alphabetic code character, then digits). -/
def formatItemsize (fmt : String) : Nat :=
  parseDigits (fmt.toList.filter Char.isDigit)

/-- A numpy dtype as the value setter observes it: name, character code and
itemsize in bytes (the numpy table for a little-endian 64-bit platform). -/
structure NpDtype where
  name : String
  char : String
  itemsize : Nat
  deriving Repr, DecidableEq

/-- 32-bit float: character code f, itemsize 4 bytes. -/
def np_float32 : NpDtype := ⟨"float32", "f", 4⟩

/-- 64-bit float: character code d, itemsize 8 bytes. -/
def np_float64 : NpDtype := ⟨"float64", "d", 8⟩

/-- 32-bit signed integer: character code i, itemsize 4 bytes. -/
def np_int32 : NpDtype := ⟨"int32", "i", 4⟩

/-- 64-bit signed integer: character code l, itemsize 8 bytes. -/
def np_int64 : NpDtype := ⟨"int64", "l", 8⟩

/-- 8-bit unsigned integer: character code B, itemsize 1 byte. -/
def np_uint8 : NpDtype := ⟨"uint8", "B", 1⟩

/-- A stored field of shape (3,4) and dtype int32, with its existing data. -/
def sampleField34 : FieldState :=
  { shape? := some [3, 4], dtype? := some "int32",
    chunks := [⟨[3, 4], "int32", List.replicate 12 0⟩] }

/-- A chunk of shape (2,4): its trailing dimensions (all but axis 0) are
(4,), equal to the stored trailing dimensions of sampleField34. -/
def chunk24 : NpArray := ⟨[2, 4], "int32", List.replicate 8 1⟩

/-- C2 counterexample: the claim says append fails with the invalid-shape
error exactly when the chunk trailing dimensions (all but axis 0) differ
from the stored trailing dimensions.  For the stored shape (3,4) and a chunk
of shape (2,4) the two trailing tuples agree, yet FieldFile.append raises
the invalid-shape error, because the code compares the ENTIRE chunk shape
against the stored trailing dimensions. -/
theorem append_trailing_claim_false :
    chunk24.shape.tail = (sampleField34.shape?.getD []).tail ∧
    appendRW sampleField34 chunk24 true =
      .error (.exception "invalid shape to append") := by
  constructor
  · rfl
  · rfl

/-- C2 (amended): append fails with the invalid-shape error exactly when the
ENTIRE chunk shape differs from the stored trailing dimensions, while extend
fails exactly when the chunk trailing dimensions differ from the stored
trailing dimensions (for a chunk of nonzero rank); on success the stored
leading dimension grows by 1 for append and by the chunk leading dimension
for extend, and the chunk is written after the existing content, leaving the
prior chunks untouched. -/
theorem append_extend_shape_growth (f : FieldState) (data : NpArray)
    (s0 : Nat) (srest : List Nat) (dt : String)
    (hs : f.shape? = some (s0 :: srest)) (hd : f.dtype? = some dt)
    (hdt : data.dtype = dt) :
    (data.shape ≠ srest →
      appendRW f data true = .error (.exception "invalid shape to append")) ∧
    (data.shape = srest →
      appendRW f data true =
        .ok { f with shape? := some ((s0 + 1) :: srest),
                     chunks := f.chunks ++ [data] }) ∧
    (data.shape.tail ≠ srest →
      extendRW f data true = .error (.exception "invalid shape to append")) ∧
    (∀ d0, data.shape = d0 :: srest →
      extendRW f data true =
        .ok { f with shape? := some ((s0 + d0) :: srest),
                     chunks := f.chunks ++ [data] }) := by
  refine ⟨?_, ?_, ?_, ?_⟩
  · intro hne
    simp [appendRW, hs, hne]
  · intro heq
    simp [appendRW, hs, hd, hdt, heq]
  · intro hne
    simp [extendRW, hs, hne]
  · intro d0 heq
    simp [extendRW, hs, heq]

/-- Witness for append_extend_shape_growth, realizing the example of the
claim: appending a chunk of shape (4,) to the stored shape (3,4) succeeds
and yields the shape (4,4) with the chunk written after the prior content,
while a chunk of shape (5,) fails with the invalid-shape error. -/
theorem append_extend_shape_growth_witness :
    sampleField34.shape? = some [3, 4] ∧
    (([5] : List Nat) ≠ [4] →
      appendRW sampleField34 ⟨[5], "int32", [9, 9, 9, 9, 9]⟩ true =
        .error (.exception "invalid shape to append")) ∧
    (([4] : List Nat) = [4] →
      appendRW sampleField34 ⟨[4], "int32", [7, 7, 7, 7]⟩ true =
        .ok { sampleField34 with
              shape? := some [4, 4],
              chunks := sampleField34.chunks ++ [⟨[4], "int32", [7, 7, 7, 7]⟩] }) := by
  refine ⟨rfl, ?_, ?_⟩
  · exact (append_extend_shape_growth sampleField34 ⟨[5], "int32", [9, 9, 9, 9, 9]⟩
      3 [4] "int32" rfl rfl rfl).1
  · intro h
    exact (append_extend_shape_growth sampleField34 ⟨[4], "int32", [7, 7, 7, 7]⟩
      3 [4] "int32" rfl rfl rfl).2.1 rfl

/-- A stored field of shape (3,) and dtype int32. -/
def sampleField3 : FieldState :=
  { shape? := some [3], dtype? := some "int32",
    chunks := [⟨[3], "int32", [1, 2, 3]⟩] }

/-- A float64 chunk of shape (2,), dtype-mismatched with sampleField3. -/
def floatChunk2 : NpArray := ⟨[2], "float64", [7, 8]⟩

/-- C6 counterexample: with coercion disabled and a dtype-mismatched chunk,
FieldFile.extend neither raises a dtype-mismatch error nor converts: the
dtype check in extend is commented out in hzf_readonly.py (lines 500-504),
so the call succeeds and the chunk is written with its own dtype. -/
theorem extend_ignores_dtype_counterexample :
    floatChunk2.dtype ≠ "int32" ∧
    extendRW sampleField3 floatChunk2 false =
      .ok { sampleField3 with shape? := some [5],
                              chunks := sampleField3.chunks ++ [floatChunk2] } := by
  constructor
  · decide
  · rfl

/-- C6 (amended): append converts a dtype-mismatched chunk to the stored
dtype before writing when coercion is enabled and raises the dtype-mismatch
error without writing when coercion is disabled; extend performs no dtype
check at all: it ignores the coercion flag and writes a mismatched chunk
unconverted, with its own dtype. -/
theorem append_coerce_extend_unchecked (f : FieldState)
    (dataA dataE : NpArray) (s0 d0 : Nat) (srest : List Nat) (dt : String)
    (hs : f.shape? = some (s0 :: srest)) (hd : f.dtype? = some dt)
    (hneA : dataA.dtype ≠ dt) (hsaA : dataA.shape = srest)
    (hneE : dataE.dtype ≠ dt) (hseE : dataE.shape = d0 :: srest) :
    appendRW f dataA false =
      .error (.exception "dtypes do not match, and coerce is set to False") ∧
    appendRW f dataA true =
      .ok { f with shape? := some ((s0 + 1) :: srest),
                   chunks := f.chunks ++ [astype dt dataA] } ∧
    (astype dt dataA).dtype = dt ∧
    extendRW f dataE false = extendRW f dataE true ∧
    extendRW f dataE false =
      .ok { f with shape? := some ((s0 + d0) :: srest),
                   chunks := f.chunks ++ [dataE] } := by
  refine ⟨?_, ?_, rfl, rfl, ?_⟩
  · simp [appendRW, hs, hd, hsaA, hneA]
  · simp [appendRW, hs, hd, hsaA, hneA]
  · simp [extendRW, hs, hseE]

/-- Witness for append_coerce_extend_unchecked at a stored (3,4) int32 field
with float64 chunks of shapes (4,) and (2,4). -/
theorem append_coerce_extend_unchecked_witness :
    sampleField34.shape? = some [3, 4] ∧
    ("float64" : String) ≠ "int32" ∧
    appendRW sampleField34 ⟨[4], "float64", [1, 2, 3, 4]⟩ false =
      .error (.exception "dtypes do not match, and coerce is set to False") ∧
    extendRW sampleField34 ⟨[2, 4], "float64", List.replicate 8 5⟩ false =
      .ok { sampleField34 with shape? := some [5, 4],
                               chunks := sampleField34.chunks ++
                                 [⟨[2, 4], "float64", List.replicate 8 5⟩] } := by
  have h := append_coerce_extend_unchecked sampleField34
    ⟨[4], "float64", [1, 2, 3, 4]⟩ ⟨[2, 4], "float64", List.replicate 8 5⟩
    3 2 [4] "int32" rfl rfl (by decide) rfl (by decide) rfl
  exact ⟨rfl, by decide, h.1, h.2.2.2.2⟩

/-- C7 counterexample: the value setter of the final iteration records the
itemsize in BYTES, so a little-endian 32-bit float is recorded as the
format string with width 4, not the bit width 32 the claim states. -/
theorem format_bitwidth_counterexample :
    valueSetFormat "little" np_float32.char np_float32.itemsize = "<f4" ∧
    specFormatBits "little" np_float32.char np_float32.itemsize = "<f32" ∧
    valueSetFormat "little" np_float32.char np_float32.itemsize ≠
      specFormatBits "little" np_float32.char np_float32.itemsize := by
  refine ⟨rfl, rfl, ?_⟩
  decide

/-- C7 (amended): for every supported dtype and byteorder, the recorded
format string is the endianness marker followed by the element type code
followed by the element size in BYTES (numpy itemsize; a little-endian
32-bit float is recorded with width 4 = 32/8); parsing the digits back out
of the recorded string recovers that byte width, and only the superseded
draft hzf.py recorded the bit width. -/
theorem format_string_byte_width (dt : NpDtype) (bo : String)
    (hdt : dt ∈ [np_float32, np_float64, np_int32, np_int64, np_uint8])
    (hbo : bo = "little" ∨ bo = "big") :
    valueSetFormat bo dt.char dt.itemsize =
      endianMark bo ++ dt.char ++ toString dt.itemsize ∧
    formatItemsize (valueSetFormat bo dt.char dt.itemsize) = dt.itemsize ∧
    valueSetFormatDraft bo dt.char dt.itemsize =
      endianMark bo ++ dt.char ++ toString (dt.itemsize * 8) := by
  rcases hbo with hbo | hbo <;> subst hbo <;>
    fin_cases hdt <;> refine ⟨rfl, ?_, rfl⟩ <;> decide

/-- Witness for format_string_byte_width at the little-endian 32-bit float
of the claim text. -/
theorem format_string_byte_width_witness :
    np_float32 ∈ [np_float32, np_float64, np_int32, np_int64, np_uint8] ∧
    valueSetFormat "little" np_float32.char np_float32.itemsize =
      endianMark "little" ++ np_float32.char ++ toString np_float32.itemsize ∧
    formatItemsize (valueSetFormat "little" np_float32.char np_float32.itemsize) =
      np_float32.itemsize := by
  have h := format_string_byte_width np_float32 "little" (by simp) (Or.inl rfl)
  exact ⟨by simp, h.1, h.2.1⟩

/-- Insertion-order-preserving key update of a Python dict modeled as an
association list: an existing key keeps its position, a new key is appended. -/
def setKey {α : Type} (m : List (String × α)) (k : String) (v : α) :
    List (String × α) :=
  match m with
  | [] => [(k, v)]
  | (k', v') :: rest =>
    if k' = k then (k, v) :: rest else (k', v') :: setKey rest k v

/-- First-match association-list lookup (Python dict key lookup). -/
def lookupKey {α : Type} (m : List (String × α)) (k : String) : Option α :=
  match m with
  | [] => none
  | (k', v') :: rest => if k' = k then some v' else lookupKey rest k

theorem lookupKey_setKey_self {α : Type} (m : List (String × α)) (k : String)
    (v : α) : lookupKey (setKey m k v) k = some v := by
  induction m with
  | nil => simp [setKey, lookupKey]
  | cons hd tl ih =>
    by_cases h : hd.1 = k <;> simp [setKey, lookupKey, h, ih]

theorem lookupKey_filter_self {α : Type} (m : List (String × α)) (k : String) :
    lookupKey (m.filter (fun kv => kv.1 ≠ k)) k = none := by
  induction m with
  | nil => rfl
  | cons hd tl ih =>
    by_cases hh : hd.1 = k
    · simpa [List.filter_cons, hh, ne_eq] using ih
    · simpa [List.filter_cons, hh, ne_eq, lookupKey] using ih

/-- Filesystem paths, as component lists (absolute, rooted). -/
def parentDir (p : List String) : List String := p.dropLast

/-- tempfile.mkstemp as called in JSONBackedDict._write (line 18 of
json_backed_dict.py): no dir argument is passed, so the temporary file is
created in the system default temporary directory, with some fresh name. -/
def mkstempPath (sysTmpDir : List String) (n : Nat) : List String :=
  sysTmpDir ++ ["tmp" ++ toString n]

/-- The filesystem as seen by one JSONBackedDict: the committed content of
its backing file (none when the file does not exist yet) plus any temporary
files, each holding a fully serialized mapping. -/
structure JsonFS where
  committed : Option (List (String × JVal))
  temps : List (List String × List (String × JVal))
  deriving Repr, DecidableEq

/-- Phase 1 of JSONBackedDict._write: mkstemp plus json.dumps of the whole
current mapping into the temporary file.  The backing file is untouched. -/
def jsonWritePhase1 (sysTmpDir : List String) (fs : JsonFS)
    (mem : List (String × JVal)) (n : Nat) : JsonFS :=
  { fs with temps := fs.temps ++ [(mkstempPath sysTmpDir n, mem)] }

/-- Phase 2 of JSONBackedDict._write: shutil.move of the temporary file onto
the backing file name (an atomic os.rename when the system temporary
directory and the backing file live on the same filesystem). -/
def jsonWritePhase2 (sysTmpDir : List String) (fs : JsonFS)
    (mem : List (String × JVal)) (n : Nat) : JsonFS :=
  { committed := some mem,
    temps := fs.temps.filter (fun t => t.1 ≠ mkstempPath sysTmpDir n) }

/-- A full JSONBackedDict.__setitem__: dict assignment followed by the
complete two-phase _write. -/
def jsonSetItem (sysTmpDir : List String) (fs : JsonFS)
    (mem : List (String × JVal)) (k : String) (v : JVal) (n : Nat) :
    List (String × JVal) × JsonFS :=
  let mem' := setKey mem k v
  (mem', jsonWritePhase2 sysTmpDir (jsonWritePhase1 sysTmpDir fs mem' n) mem' n)

/-- A __setitem__ whose _write is interrupted after the temporary file is
written but before the rename: only phase 1 has happened. -/
def jsonSetItemCrashed (sysTmpDir : List String) (fs : JsonFS)
    (mem : List (String × JVal)) (k : String) (v : JVal) (n : Nat) : JsonFS :=
  jsonWritePhase1 sysTmpDir fs (setKey mem k v) n

/-- JSONBackedDict.__delitem__: dict deletion (KeyError when the key is
absent) followed by the complete two-phase _write. -/
def jsonDelItem (sysTmpDir : List String) (fs : JsonFS)
    (mem : List (String × JVal)) (k : String) (n : Nat) :
    Except PyErr (List (String × JVal) × JsonFS) :=
  match lookupKey mem k with
  | none => .error (.keyError k)
  | some _ =>
    let mem' := mem.filter (fun kv => kv.1 ≠ k)
    .ok (mem', jsonWritePhase2 sysTmpDir (jsonWritePhase1 sysTmpDir fs mem' n) mem' n)

/-- The backing file of the root attribute store of a typical session. -/
def sampleBacking : List String := ["work", "entry", ".attrs"]

/-- The system default temporary directory. -/
def sampleSysTmp : List String := ["tmp"]

/-- C4 counterexample: the claim says the temporary file is created adjacent
to the backing file.  JSONBackedDict._write calls tempfile.mkstemp with no
dir argument, so the temporary file lands in the system default temporary
directory; for a backing file in any other directory the two parents
differ. -/
theorem attrs_tmpfile_not_adjacent :
    parentDir (mkstempPath sampleSysTmp 0) = sampleSysTmp ∧
    parentDir sampleBacking = ["work", "entry"] ∧
    parentDir (mkstempPath sampleSysTmp 0) ≠ parentDir sampleBacking := by
  refine ⟨rfl, rfl, ?_⟩
  decide

/-- C4 (amended): every set and delete serializes the full current mapping
to a temporary file created in the system default temporary directory (not
adjacent to the backing file) and then moves it onto the backing file name
(an atomic rename when both are on one filesystem); a set interrupted after
the temporary write but before the move leaves the previously committed
mapping intact and readable, and a completed set or delete commits exactly
the full new mapping. -/
theorem jsonbackeddict_write_safety (sysTmpDir : List String) (fs : JsonFS)
    (mem : List (String × JVal)) (k : String) (v : JVal) (n : Nat) :
    parentDir (mkstempPath sysTmpDir n) = sysTmpDir ∧
    (jsonSetItemCrashed sysTmpDir fs mem k v n).committed = fs.committed ∧
    (mkstempPath sysTmpDir n, setKey mem k v) ∈
      (jsonSetItemCrashed sysTmpDir fs mem k v n).temps ∧
    (jsonSetItem sysTmpDir fs mem k v n).2.committed = some (setKey mem k v) ∧
    lookupKey (jsonSetItem sysTmpDir fs mem k v n).1 k = some v ∧
    (∀ mem' fs', jsonDelItem sysTmpDir fs mem k n = .ok (mem', fs') →
      fs'.committed = some mem' ∧ lookupKey mem' k = none) := by
  refine ⟨?_, rfl, ?_, rfl, ?_, ?_⟩
  · simp [mkstempPath, parentDir]
  · simp [jsonSetItemCrashed, jsonWritePhase1]
  · exact lookupKey_setKey_self mem k v
  · intro mem' fs' h
    unfold jsonDelItem at h
    cases hl : lookupKey mem k with
    | none => rw [hl] at h; exact absurd h (by simp)
    | some w =>
      rw [hl] at h
      simp only [Except.ok.injEq, Prod.mk.injEq] at h
      obtain ⟨h1, h2⟩ := h
      subst h1; subst h2
      exact ⟨rfl, lookupKey_filter_self mem k⟩

/-- Witness for jsonbackeddict_write_safety at a concrete store. -/
theorem jsonbackeddict_write_safety_witness :
    parentDir (mkstempPath sampleSysTmp 3) = sampleSysTmp ∧
    (jsonSetItemCrashed sampleSysTmp ⟨some [("a", JVal.num 1)], []⟩
        [("a", JVal.num 1)] "b" (JVal.num 2) 3).committed =
      (⟨some [("a", JVal.num 1)], []⟩ : JsonFS).committed ∧
    (mkstempPath sampleSysTmp 3, setKey [("a", JVal.num 1)] "b" (JVal.num 2)) ∈
      (jsonSetItemCrashed sampleSysTmp ⟨some [("a", JVal.num 1)], []⟩
        [("a", JVal.num 1)] "b" (JVal.num 2) 3).temps ∧
    (jsonSetItem sampleSysTmp ⟨some [("a", JVal.num 1)], []⟩
        [("a", JVal.num 1)] "b" (JVal.num 2) 3).2.committed =
      some (setKey [("a", JVal.num 1)] "b" (JVal.num 2)) ∧
    lookupKey (jsonSetItem sampleSysTmp ⟨some [("a", JVal.num 1)], []⟩
        [("a", JVal.num 1)] "b" (JVal.num 2) 3).1 "b" = some (JVal.num 2) ∧
    (∀ mem' fs', jsonDelItem sampleSysTmp ⟨some [("a", JVal.num 1)], []⟩
        [("a", JVal.num 1)] "b" 3 = .ok (mem', fs') →
      fs'.committed = some mem' ∧ lookupKey mem' "b" = none) :=
  jsonbackeddict_write_safety sampleSysTmp ⟨some [("a", JVal.num 1)], []⟩
    [("a", JVal.num 1)] "b" (JVal.num 2) 3

/-- A value held by a JSONBackedDict entry: either a non-mapping JSON value,
a plain mapping (as json.loads produces), or a JSONBackedSubDict child view
(the wrapper installed by __getitem__). -/
inductive JV where
  | prim (v : JVal) : JV
  | plainDict (d : List (String × JVal)) : JV
  | subDict (d : List (String × JVal)) : JV
  deriving Repr, DecidableEq

/-- A JSONBackedDict together with its persistence history: the in-memory
mapping and the log of _write events, each recording the full serialized
mapping that was flushed to the backing file (every event rewrites the
backing file on disk). -/
structure JBDState where
  mem : List (String × JV)
  writeLog : List (List (String × JV))
  deriving Repr, DecidableEq

/-- JSONBackedDict._write: json.dumps of the whole mapping replaces the
backing file (via the mkstemp plus move sequence modeled above). -/
def jbdFlush (s : JBDState) : JBDState :=
  { s with writeLog := s.writeLog ++ [s.mem] }

/-- JSONBackedDict.__setitem__ (json_backed_dict.py lines 39-41):
dict.__setitem__ then _write. -/
def jbdSetItem (s : JBDState) (k : String) (v : JV) : JBDState :=
  jbdFlush { s with mem := setKey s.mem k v }

/-- JSONBackedDict.__getitem__ (json_backed_dict.py lines 31-37): the value
is fetched; when it is a plain dict and not already a JSONBackedSubDict it
is wrapped into a child view and stored back through self[key] = value,
which is a __setitem__ and therefore flushes the whole mapping to disk. -/
def jbdGetItem (s : JBDState) (k : String) : Except PyErr (JV × JBDState) :=
  match lookupKey s.mem k with
  | none => .error (.keyError k)
  | some (JV.plainDict d) =>
    let v := JV.subDict d
    .ok (v, jbdSetItem s k v)
  | some v => .ok (v, s)

/-- C10: retrieving a key whose stored value is a plain mapping is not
side-effect-free: the retrieval replaces the stored value with a
JSONBackedSubDict child view and performs a _write, appending one full
rewrite of the backing file to the persistence history, while retrieving a
non-mapping value leaves the state untouched. -/
theorem getitem_rewrites_backing (s : JBDState) (k : String)
    (d : List (String × JVal))
    (h : lookupKey s.mem k = some (JV.plainDict d)) :
    (∃ s', jbdGetItem s k = .ok (JV.subDict d, s') ∧
      lookupKey s'.mem k = some (JV.subDict d) ∧
      s'.writeLog = s.writeLog ++ [s'.mem] ∧
      s'.writeLog.length = s.writeLog.length + 1) ∧
    (∀ w, lookupKey s.mem k = some (JV.prim w) → False) ∧
    (∀ s₂ k₂ w, lookupKey s₂.mem k₂ = some (JV.prim w) →
      jbdGetItem s₂ k₂ = .ok (JV.prim w, s₂)) := by
  refine ⟨⟨jbdSetItem s k (JV.subDict d), ?_, ?_, rfl, by simp [jbdSetItem, jbdFlush]⟩,
    ?_, ?_⟩
  · simp [jbdGetItem, h]
  · simpa [jbdSetItem, jbdFlush] using lookupKey_setKey_self s.mem k (JV.subDict d)
  · intro w hw
    rw [h] at hw
    exact absurd hw (by simp)
  · intro s₂ k₂ w hw
    simp [jbdGetItem, hw]

/-- A concrete attribute store whose key holds a plain mapping. -/
def sampleJBD : JBDState :=
  { mem := [("units", JV.prim (JVal.str "s")),
            ("extra", JV.plainDict [("nested", JVal.num 1)])],
    writeLog := [[("units", JV.prim (JVal.str "s")),
                  ("extra", JV.plainDict [("nested", JVal.num 1)])]] }

/-- Witness for getitem_rewrites_backing: on sampleJBD, retrieving the key
holding a plain mapping flushes the store once more. -/
theorem getitem_rewrites_backing_witness :
    lookupKey sampleJBD.mem "extra" =
      some (JV.plainDict [("nested", JVal.num 1)]) ∧
    ((∃ s', jbdGetItem sampleJBD "extra" =
        .ok (JV.subDict [("nested", JVal.num 1)], s') ∧
      lookupKey s'.mem "extra" = some (JV.subDict [("nested", JVal.num 1)]) ∧
      s'.writeLog = sampleJBD.writeLog ++ [s'.mem] ∧
      s'.writeLog.length = sampleJBD.writeLog.length + 1) ∧
    (∀ w, lookupKey sampleJBD.mem "extra" = some (JV.prim w) → False) ∧
    (∀ s₂ k₂ w, lookupKey s₂.mem k₂ = some (JV.prim w) →
      jbdGetItem s₂ k₂ = .ok (JV.prim w, s₂))) :=
  ⟨by decide, getitem_rewrites_backing sampleJBD "extra"
    [("nested", JVal.num 1)] (by decide)⟩

/-- Content of one file in the working directory.  Byte payloads model the
binary data files (tofile output), line lists model the savetxt text files
(each line is newline-terminated on disk), and JSON mappings model the
.attrs and .link files; the zip packaging preserves each content verbatim. -/
inductive Content where
  | bytes (bs : List Nat) : Content
  | text (lines : List String) : Content
  | json (attrs : List (String × JVal)) : Content
  deriving Repr, DecidableEq

/-- One node of the working directory: a directory or a file. -/
inductive FsEntry where
  | dir : FsEntry
  | file (c : Content) : FsEntry
  deriving Repr, DecidableEq

/-- The working directory of a write session: the nodes under os_path,
keyed by path (components of the slash-separated path). -/
abbrev WorkState : Type := List (List String × FsEntry)

/-- True when the string holds no slash character (code point 47), so that
a component list and its slash-joined string form determine each other. -/
def slashFree (c : String) : Bool :=
  c.toList.all (fun ch => ch.toNat ≠ 47)

/-- Structural sanity of a working directory: one entry per path, no entry
at the root itself, and components that are nonempty and slash-free (so the
component view and the slash-separated string view coincide). -/
def WellFormedWS (S : WorkState) : Prop :=
  (S.map Prod.fst).Nodup ∧
  ∀ p ∈ S.map Prod.fst, p ≠ [] ∧ ∀ c ∈ p, c ≠ "" ∧ slashFree c = true

instance wellFormedWS_dec (S : WorkState) : Decidable (WellFormedWS S) :=
  inferInstanceAs (Decidable ((S.map Prod.fst).Nodup ∧
    ∀ p ∈ S.map Prod.fst, p ≠ [] ∧ ∀ c ∈ p, c ≠ "" ∧ slashFree c = true))

/-- Filesystem lookup under os_path (first match; keys are unique in a
well-formed state). -/
def wrLookup (S : WorkState) (p : List String) : Option FsEntry :=
  (S.find? (fun e => e.1 == p)).map Prod.snd

/-- ReadWriteFile.exists in write mode: os.path.exists of the joined path
(the root itself always exists). -/
def wrExists (S : WorkState) (p : List String) : Bool :=
  p == [] || (wrLookup S p).isSome

/-- ReadWriteFile.isdir in write mode: os.path.isdir of the joined path. -/
def wrIsdir (S : WorkState) (p : List String) : Bool :=
  p == [] || (match wrLookup S p with | some .dir => true | _ => false)

/-- Which kind of stream root.open hands back: in write mode a real file
object from builtin open; in readonly mode a zipfile.ZipExtFile streaming
out of the archive (hzf_readonly.py lines 210-215). -/
inductive StreamKind where
  | realFile : StreamKind
  | zipStream : StreamKind
  deriving Repr, DecidableEq

/-- An opened stream: its kind together with the content it yields.  The
read and readline protocols work on both kinds; only numpy.fromfile cares
about the difference. -/
structure PyStream where
  kind : StreamKind
  content : Content
  deriving Repr, DecidableEq

/-- ReadWriteFile.open for reading in write mode: builtin open returns a
real file object; IOError on a missing file (or a directory). -/
def wrOpenStream (S : WorkState) (p : List String) : Except PyErr PyStream :=
  match wrLookup S p with
  | some (.file c) => .ok ⟨.realFile, c⟩
  | _ => .error .ioError

/-- Size in bytes of a stored content: length for byte payloads; for text,
each stored line is newline-terminated; the JSON files are serialized
mappings, at least the two brace bytes (the engine never queries their
size). -/
def contentSize : Content → Nat
  | .bytes bs => bs.length
  | .text ls => (ls.map (fun l => l.length + 1)).sum
  | .json _ => 2

/-- ReadWriteFile.getsize in write mode: os.path.getsize (a directory
reports its block size, never 1). -/
def wrGetsize (S : WorkState) (p : List String) : Except PyErr Nat :=
  match wrLookup S p with
  | some (.file c) => .ok (contentSize c)
  | some .dir => .ok 4096
  | none => .error .ioError

/-- One entry of the produced zip archive.  Directory entries carry the
trailing-slash name form; file entries carry the file content verbatim. -/
structure ZipEntry where
  path : List String
  isDir : Bool
  content : Content
  deriving Repr, DecidableEq

/-- What make_zipfile writes for one node of the working directory: the
os.walk over the tree visits every directory and every file exactly once,
and write_item records a directory entry (name plus trailing slash) or the
file bytes (the working tree an engine session produces contains no
symbolic links: FieldLink writes its sentinel as a regular file). -/
def entryToZip (e : List String × FsEntry) : ZipEntry :=
  match e with
  | (p, .dir) => ⟨p, true, .bytes []⟩
  | (p, .file c) => ⟨p, false, c⟩

/-- The archive produced by ReadWriteFile.close / writezip / make_zipfile
from the working directory. -/
def zipOf (S : WorkState) : List ZipEntry := S.map entryToZip

/-- Slash-joined form of a component path. -/
def joinPath (p : List String) : String := String.intercalate "/" p

/-- Membership test of a stripped path in ZipFile.namelist(): a file entry
name matches the path exactly; directory entry names end in a slash and
never equal a stripped path. -/
def roFileHit (Z : List ZipEntry) (p : List String) : Bool :=
  Z.any (fun z => !z.isDir && z.path == p)

/-- ReadWriteFile.isdir in readonly mode (hzf_readonly.py lines 172-177):
the root is a directory, otherwise the trailing-slash name must be in the
namelist. -/
def roIsdir (Z : List ZipEntry) (p : List String) : Bool :=
  p == [] || Z.any (fun z => z.isDir && z.path == p)

/-- ReadWriteFile.exists in readonly mode (lines 190-196): membership in
the namelist or isdir. -/
def roExists (Z : List ZipEntry) (p : List String) : Bool :=
  roFileHit Z p || roIsdir Z p

/-- ReadWriteFile.open in readonly mode: ZipFile.open, KeyError when no
item of that name exists. -/
def roOpenRead (Z : List ZipEntry) (p : List String) : Except PyErr Content :=
  match Z.find? (fun z => !z.isDir && z.path == p) with
  | some z => .ok z.content
  | none => .error (.keyError (joinPath p))

/-- ReadWriteFile.getsize in readonly mode: ZipFile.getinfo(path).file_size,
KeyError when no item of that name exists. -/
def roGetsize (Z : List ZipEntry) (p : List String) : Except PyErr Nat :=
  match Z.find? (fun z => !z.isDir && z.path == p) with
  | some z => .ok (contentSize z.content)
  | none => .error (.keyError (joinPath p))

/-- ReadWriteFile.open in readonly mode as a stream: ZipFile.open returns a
ZipExtFile over the entry, KeyError when no item of that name exists. -/
def roOpenStream (Z : List ZipEntry) (p : List String) :
    Except PyErr PyStream :=
  match Z.find? (fun z => !z.isDir && z.path == p) with
  | some z => .ok ⟨.zipStream, z.content⟩
  | none => .error (.keyError (joinPath p))

/-- The two primitives FieldFile.value consumes, open and getsize,
abstracted over the session mode.  Open yields the stream, carrying both
the content and whether it is a real file object. -/
structure RdBackend where
  rdOpen : List String → Except PyErr PyStream
  rdSize : List String → Except PyErr Nat

/-- The write-mode backend of an open session. -/
def wrRd (S : WorkState) : RdBackend := ⟨wrOpenStream S, wrGetsize S⟩

/-- The readonly backend over a packed archive. -/
def roRd (Z : List ZipEntry) : RdBackend := ⟨roOpenStream Z, roGetsize Z⟩

theorem wrRd_rdOpen (S : WorkState) : (wrRd S).rdOpen = wrOpenStream S := rfl

theorem wrRd_rdSize (S : WorkState) : (wrRd S).rdSize = wrGetsize S := rfl

theorem roRd_rdOpen (Z : List ZipEntry) :
    (roRd Z).rdOpen = roOpenStream Z := rfl

theorem roRd_rdSize (Z : List ZipEntry) :
    (roRd Z).rdSize = roGetsize Z := rfl

/-- The sibling attribute file of a field: the path string plus the .attrs
suffix appended to the last component. -/
def attrsPath (p : List String) : List String :=
  p.dropLast ++ [p.getLastD "" ++ ".attrs"]

/-- One step of cutting a byte stream into items of k bytes: the byte joins
the current partial item, which is flushed once it reaches k bytes. -/
def chunkStep (k : Nat) (st : List Nat × List (List Nat)) (x : Nat) :
    List Nat × List (List Nat) :=
  let cur := st.1 ++ [x]
  if cur.length = k then ([], st.2 ++ [cur]) else (cur, st.2)

/-- numpy.fromfile byte decoding: the byte stream is cut into consecutive
items of itemsize bytes, a trailing incomplete item being dropped. -/
def chunkList (k : Nat) (bs : List Nat) : List (List Nat) :=
  (bs.foldl (chunkStep k) ([], [])).2

/-- numpy.loadtxt row decoding of one delimited line. -/
def splitTab (l : String) : List String := l.splitOn "\t"

/-- The decoded array of a field, up to the reshape (the shape is part of
the attrs, which the theorems compare separately): either the itemsize-sized
byte items of a binary field, or the delimited text rows of a text field. -/
inductive FieldValue where
  | binItems (items : List (List Nat)) : FieldValue
  | textRows (rows : List (List String)) : FieldValue
  deriving Repr, DecidableEq

/-- Attribute lookup with a default, as attrs.get. -/
def attrsGet (attrs : List (String × JVal)) (k : String) : Option JVal :=
  lookupKey attrs k

/-- Python exception propagation: the continuation runs only when the
previous call returned normally. -/
def exBind {α β : Type} (x : Except PyErr α) (f : α → Except PyErr β) :
    Except PyErr β :=
  match x with
  | .error e => .error e
  | .ok a => f a

theorem exBind_ok {α β : Type} (a : α) (f : α → Except PyErr β) :
    exBind (.ok a) f = f a := rfl

theorem exBind_error {α β : Type} (e : PyErr) (f : α → Except PyErr β) :
    exBind (.error e) f = .error e := rfl

/-- The numpy.fromfile step of FieldFile.value: attrs format lookup
(KeyError when absent), then the file-object check, then decoding of the
raw bytes.  Python-2 numpy.fromfile obtains a C FILE pointer from its first
argument, so it accepts only a genuine file object; the ZipExtFile the
readonly backend hands out is rejected with IOError (first argument must be
an open file), so a binary field can never be decoded from the packed
archive. -/
def decodeBin (attrs : List (String × JVal)) (st : PyStream) :
    Except PyErr FieldValue :=
  match attrsGet attrs "format", st.kind, st.content with
  | some (JVal.str fmt), .realFile, .bytes bs =>
    .ok (.binItems (chunkList (formatItemsize fmt) bs))
  | some (JVal.str _), .zipStream, _ => .error .ioError
  | some (JVal.str _), .realFile, _ =>
    .error (.typeError "fromfile needs raw bytes")
  | _, _, _ => .error (.keyError "format")

/-- The text step of FieldFile.value at a known file size: size 1 (a single
newline) decodes to one empty-string record, otherwise numpy.loadtxt. -/
def decodeTextAt (n : Nat) (c : Content) : Except PyErr FieldValue :=
  if n = 1 then .ok (.textRows [[""]])
  else
    match c with
    | .text ls => .ok (.textRows (ls.map splitTab))
    | _ => .error (.typeError "loadtxt needs text")

/-- FieldFile.value, the getter (hzf_readonly.py lines 428-444), given the
already-loaded attrs: open the data file; binary fields go through
numpy.fromfile at the recorded format (which demands a real file object);
text fields consult getsize and decode through numpy.loadtxt, which
iterates any file-like stream and so works on both backends. -/
def readFieldValue (rb : RdBackend) (attrs : List (String × JVal))
    (p : List String) : Except PyErr FieldValue :=
  exBind (rb.rdOpen p) (fun st =>
    if (attrsGet attrs "binary").getD JVal.null == JVal.boolean true then
      decodeBin attrs st
    else
      exBind (rb.rdSize p) (fun n => decodeTextAt n st.content))

/-- The makeAttrs step of a field read: json.loads consumes the .read() of
the stream (available on both stream kinds), so only the content matters;
it must be a JSON document, and the value read proceeds with the parsed
attrs. -/
def readFieldWithAttrs (rb : RdBackend) (p : List String) (c : Content) :
    Except PyErr (List (String × JVal) × FieldValue) :=
  match c with
  | .json attrs =>
    exBind (readFieldValue rb attrs p) (fun v => .ok (attrs, v))
  | _ => .error (.typeError "json.loads needs a JSON document")

/-- A full field read: load the attrs file (makeAttrs, json.loads), then
the value.  The attrs carry the dtype and shape the claims compare. -/
def readField (rb : RdBackend) (p : List String) :
    Except PyErr (List (String × JVal) × FieldValue) :=
  exBind (rb.rdOpen (attrsPath p)) (fun st => readFieldWithAttrs rb p st.content)

theorem zip_find_none_of_notmem (S : WorkState) (p : List String)
    (h : p ∉ S.map Prod.fst) :
    (zipOf S).find? (fun z => !z.isDir && z.path == p) = none := by
  induction S with
  | nil => rfl
  | cons hd tl ih =>
    obtain ⟨q, e⟩ := hd
    simp only [List.map_cons, List.mem_cons, not_or] at h
    have hq : (q == p) = false :=
      beq_eq_false_iff_ne.mpr (fun e2 => h.1 e2.symm)
    cases e with
    | dir =>
      show List.find? (fun z => !z.isDir && z.path == p)
        ((⟨q, true, Content.bytes []⟩ : ZipEntry) :: zipOf tl) = none
      exact (List.find?_cons_of_neg _ (by simp)).trans (ih h.2)
    | file c =>
      show List.find? (fun z => !z.isDir && z.path == p)
        ((⟨q, false, c⟩ : ZipEntry) :: zipOf tl) = none
      exact (List.find?_cons_of_neg _ (by simp [hq])).trans (ih h.2)

theorem zip_any_none_of_notmem (S : WorkState) (p : List String)
    (h : p ∉ S.map Prod.fst) (f : Bool → Bool) :
    (zipOf S).any (fun z => f z.isDir && z.path == p) = false := by
  induction S with
  | nil => rfl
  | cons hd tl ih =>
    obtain ⟨q, e⟩ := hd
    simp only [List.map_cons, List.mem_cons, not_or] at h
    have hq : (q == p) = false :=
      beq_eq_false_iff_ne.mpr (fun e2 => h.1 e2.symm)
    cases e with
    | dir =>
      show (f true && (q == p) || (zipOf tl).any (fun z => f z.isDir && z.path == p)) = false
      rw [hq, Bool.and_false, Bool.false_or]
      exact ih h.2
    | file c =>
      show (f false && (q == p) || (zipOf tl).any (fun z => f z.isDir && z.path == p)) = false
      rw [hq, Bool.and_false, Bool.false_or]
      exact ih h.2

theorem zip_anyfile_none (S : WorkState) (p : List String)
    (h : p ∉ S.map Prod.fst) :
    (zipOf S).any (fun z => !z.isDir && z.path == p) = false := by
  simpa using zip_any_none_of_notmem S p h (fun b => !b)

theorem zip_anydir_none (S : WorkState) (p : List String)
    (h : p ∉ S.map Prod.fst) :
    (zipOf S).any (fun z => z.isDir && z.path == p) = false := by
  simpa using zip_any_none_of_notmem S p h (fun b => b)

theorem wrLookup_cons_self (q : List String) (e : FsEntry)
    (tl : WorkState) : wrLookup ((q, e) :: tl) q = some e := by
  unfold wrLookup
  rw [List.find?_cons_of_pos _ (by simp)]
  rfl

theorem wrLookup_cons_ne (q p : List String) (e : FsEntry) (tl : WorkState)
    (hqp : ¬q = p) : wrLookup ((q, e) :: tl) p = wrLookup tl p := by
  unfold wrLookup
  rw [List.find?_cons_of_neg _ (by simp [beq_eq_false_iff_ne.mpr hqp])]

theorem wrLookup_none_iff (S : WorkState) (p : List String) :
    wrLookup S p = none ↔ p ∉ S.map Prod.fst := by
  induction S with
  | nil => simp [wrLookup]
  | cons hd tl ih =>
    obtain ⟨q, e⟩ := hd
    by_cases hqp : q = p
    · subst hqp
      rw [wrLookup_cons_self]
      exact iff_of_false (fun hh => Option.noConfusion hh)
        (fun hn => hn (List.mem_cons_self q (List.map Prod.fst tl)))
    · rw [wrLookup_cons_ne q p e tl hqp, ih]
      have hpq : ¬p = q := fun h => hqp h.symm
      constructor
      · intro hn hmem
        rcases List.mem_cons.mp hmem with h1 | h2
        · exact hpq h1
        · exact hn h2
      · intro hn hmem
        exact hn (List.mem_cons_of_mem _ hmem)

theorem wrLookup_mem (S : WorkState) (p : List String) (e : FsEntry)
    (h : wrLookup S p = some e) : (p, e) ∈ S := by
  induction S with
  | nil => exact absurd h (by simp [wrLookup])
  | cons hd tl ih =>
    obtain ⟨q, e'⟩ := hd
    by_cases hqp : q = p
    · subst hqp
      rw [wrLookup_cons_self] at h
      obtain rfl : e' = e := by injection h
      exact List.mem_cons_self _ _
    · rw [wrLookup_cons_ne q p e' tl hqp] at h
      exact List.mem_cons_of_mem _ (ih h)

theorem key_entry_unique (S : WorkState) (hnd : (S.map Prod.fst).Nodup)
    (p : List String) (a b : FsEntry) (ha : (p, a) ∈ S) (hb : (p, b) ∈ S) :
    a = b := by
  induction S with
  | nil => exact absurd ha (List.not_mem_nil _)
  | cons hd tl ih =>
    simp only [List.map_cons, List.nodup_cons] at hnd
    rcases List.mem_cons.mp ha with ha1 | ha2 <;>
      rcases List.mem_cons.mp hb with hb1 | hb2
    · exact congrArg Prod.snd (ha1.trans hb1.symm)
    · exfalso
      have hp : p ∈ List.map Prod.fst tl := List.mem_map.mpr ⟨(p, b), hb2, rfl⟩
      have hd1 : hd.1 = p := by rw [← ha1]
      exact hnd.1 (by rw [hd1]; exact hp)
    · exfalso
      have hp : p ∈ List.map Prod.fst tl := List.mem_map.mpr ⟨(p, a), ha2, rfl⟩
      have hd1 : hd.1 = p := by rw [← hb1]
      exact hnd.1 (by rw [hd1]; exact hp)
    · exact ih hnd.2 ha2 hb2

theorem mem_zipOf_src (S : WorkState) (z : ZipEntry) (h : z ∈ zipOf S) :
    ∃ e : FsEntry, (z.path, e) ∈ S ∧ entryToZip (z.path, e) = z := by
  obtain ⟨x, hx, hxz⟩ := List.mem_map.mp h
  obtain ⟨q, e⟩ := x
  have hpath : z.path = q := by cases e <;> simp [entryToZip] at hxz <;>
    rw [← hxz]
  exact ⟨e, by rw [hpath]; exact ⟨hx, by rw [← hxz]⟩⟩

theorem anyfile_true_of_lookup (S : WorkState) (p : List String) (c : Content)
    (h : wrLookup S p = some (.file c)) : roFileHit (zipOf S) p = true := by
  apply List.any_eq_true.mpr
  refine ⟨entryToZip (p, .file c),
    List.mem_map_of_mem entryToZip (wrLookup_mem S p _ h), ?_⟩
  simp [entryToZip]

theorem anydir_true_of_lookup (S : WorkState) (p : List String)
    (h : wrLookup S p = some .dir) :
    (zipOf S).any (fun z => z.isDir && z.path == p) = true := by
  apply List.any_eq_true.mpr
  refine ⟨entryToZip (p, .dir),
    List.mem_map_of_mem entryToZip (wrLookup_mem S p _ h), ?_⟩
  simp [entryToZip]

theorem anydir_false_of_file (S : WorkState) (p : List String) (c : Content)
    (hnd : (S.map Prod.fst).Nodup) (h : wrLookup S p = some (.file c)) :
    (zipOf S).any (fun z => z.isDir && z.path == p) = false := by
  cases hany : (zipOf S).any (fun z => z.isDir && z.path == p) with
  | false => rfl
  | true =>
    exfalso
    obtain ⟨z, hz, hpred⟩ := List.any_eq_true.mp hany
    have hdirz : z.isDir = true := (Bool.and_eq_true_iff.mp hpred).1
    have hpathz : z.path = p := eq_of_beq (Bool.and_eq_true_iff.mp hpred).2
    obtain ⟨e, hmem, hez⟩ := mem_zipOf_src S z hz
    rw [hpathz] at hmem
    have hfe : e = FsEntry.file c :=
      key_entry_unique S hnd p e (FsEntry.file c) hmem (wrLookup_mem S p _ h)
    subst hfe
    rw [← hez] at hdirz
    simp [entryToZip] at hdirz

theorem zip_find_file_eq_entry (S : WorkState) (p : List String) (c : Content)
    (hnd : (S.map Prod.fst).Nodup) (h : wrLookup S p = some (.file c)) :
    (zipOf S).find? (fun z => !z.isDir && z.path == p) =
      some ⟨p, false, c⟩ := by
  cases hfind : (zipOf S).find? (fun z => !z.isDir && z.path == p) with
  | none =>
    exfalso
    have hmem := List.mem_map_of_mem entryToZip (wrLookup_mem S p _ h)
    have := (List.find?_eq_none.mp hfind) _ hmem
    simp [entryToZip] at this
  | some z =>
    have hz := List.mem_of_find?_eq_some hfind
    have hpred := List.find?_some hfind
    have hdir : z.isDir = false := by
      have h1 := (Bool.and_eq_true_iff.mp hpred).1
      cases hzd : z.isDir
      · rfl
      · rw [hzd] at h1; simp at h1
    have hpath : z.path = p := eq_of_beq (Bool.and_eq_true_iff.mp hpred).2
    obtain ⟨e, hmem, hez⟩ := mem_zipOf_src S z hz
    rw [hpath] at hmem
    have hfe : e = FsEntry.file c :=
      key_entry_unique S hnd p e (FsEntry.file c) hmem (wrLookup_mem S p _ h)
    subst hfe
    rw [hpath] at hez
    rw [← hez]
    rfl

theorem roExists_eq (S : WorkState) (p : List String) (hwf : WellFormedWS S) :
    roExists (zipOf S) p = wrExists S p := by
  obtain ⟨hnd, _⟩ := hwf
  cases hl : wrLookup S p with
  | none =>
    have hnm := (wrLookup_none_iff S p).mp hl
    unfold roExists roFileHit roIsdir wrExists
    rw [zip_anyfile_none S p hnm, zip_anydir_none S p hnm, hl]
    simp
  | some e =>
    cases e with
    | dir =>
      unfold roExists roFileHit roIsdir wrExists
      rw [anydir_true_of_lookup S p hl, hl]
      simp
    | file c =>
      have hfile := anyfile_true_of_lookup S p c hl
      unfold roFileHit at hfile
      unfold roExists roFileHit roIsdir wrExists
      rw [hfile, hl]
      simp

theorem roIsdir_eq (S : WorkState) (p : List String) (hwf : WellFormedWS S) :
    roIsdir (zipOf S) p = wrIsdir S p := by
  obtain ⟨hnd, _⟩ := hwf
  cases hl : wrLookup S p with
  | none =>
    unfold roIsdir wrIsdir
    rw [zip_anydir_none S p ((wrLookup_none_iff S p).mp hl), hl]
  | some e =>
    cases e with
    | dir =>
      unfold roIsdir wrIsdir
      rw [anydir_true_of_lookup S p hl, hl]
    | file c =>
      unfold roIsdir wrIsdir
      rw [anydir_false_of_file S p c hnd hl, hl]

theorem wrOpenStream_ok_elim (S : WorkState) (q : List String)
    (st : PyStream) (h : wrOpenStream S q = .ok st) :
    wrLookup S q = some (.file st.content) ∧ st.kind = .realFile := by
  unfold wrOpenStream at h
  cases hl : wrLookup S q with
  | none => rw [hl] at h; exact absurd h (by simp)
  | some e =>
    cases e with
    | dir => rw [hl] at h; exact absurd h (by simp)
    | file c =>
      rw [hl] at h
      injection h with h2
      subst h2
      exact ⟨rfl, rfl⟩

theorem roOpenStream_of_lookup (S : WorkState)
    (hnd : (S.map Prod.fst).Nodup) (q : List String) (c : Content)
    (h : wrLookup S q = some (.file c)) :
    roOpenStream (zipOf S) q = .ok ⟨.zipStream, c⟩ := by
  unfold roOpenStream
  rw [zip_find_file_eq_entry S q c hnd h]

theorem roGetsize_of_lookup (S : WorkState) (hnd : (S.map Prod.fst).Nodup)
    (q : List String) (c : Content) (h : wrLookup S q = some (.file c)) :
    roGetsize (zipOf S) q = .ok (contentSize c) := by
  unfold roGetsize
  rw [zip_find_file_eq_entry S q c hnd h]

theorem wrGetsize_of_lookup (S : WorkState) (q : List String) (c : Content)
    (h : wrLookup S q = some (.file c)) :
    wrGetsize S q = .ok (contentSize c) := by
  unfold wrGetsize
  rw [h]

theorem readFieldValue_text_transfer (S : WorkState)
    (hnd : (S.map Prod.fst).Nodup) (attrs : List (String × JVal))
    (p : List String) (v : FieldValue)
    (hb : ((attrsGet attrs "binary").getD JVal.null == JVal.boolean true) = false)
    (h : readFieldValue (wrRd S) attrs p = .ok v) :
    readFieldValue (roRd (zipOf S)) attrs p = .ok v := by
  unfold readFieldValue at h ⊢
  rw [wrRd_rdOpen, wrRd_rdSize] at h
  rw [roRd_rdOpen, roRd_rdSize]
  cases ho : wrOpenStream S p with
  | error e =>
    rw [ho, exBind_error] at h
    exact absurd h (by simp)
  | ok st =>
    rw [ho] at h
    simp only [exBind_ok] at h
    obtain ⟨hl, _⟩ := wrOpenStream_ok_elim S p st ho
    rw [roOpenStream_of_lookup S hnd p st.content hl]
    simp only [exBind_ok]
    have hb' : ¬(((attrsGet attrs "binary").getD JVal.null ==
        JVal.boolean true) = true) := by rw [hb]; simp
    rw [if_neg hb'] at h
    rw [if_neg hb']
    rw [wrGetsize_of_lookup S p st.content hl] at h
    rw [roGetsize_of_lookup S hnd p st.content hl]
    simp only [exBind_ok] at h ⊢
    exact h

theorem readFieldValue_binary_ioerror (S : WorkState)
    (hnd : (S.map Prod.fst).Nodup) (attrs : List (String × JVal))
    (p : List String) (v : FieldValue)
    (hb : ((attrsGet attrs "binary").getD JVal.null == JVal.boolean true) = true)
    (h : readFieldValue (wrRd S) attrs p = .ok v) :
    readFieldValue (roRd (zipOf S)) attrs p = .error .ioError := by
  unfold readFieldValue at h ⊢
  rw [wrRd_rdOpen] at h
  rw [roRd_rdOpen]
  cases ho : wrOpenStream S p with
  | error e =>
    rw [ho, exBind_error] at h
    exact absurd h (by simp)
  | ok st =>
    rw [ho] at h
    simp only [exBind_ok] at h
    obtain ⟨hl, _⟩ := wrOpenStream_ok_elim S p st ho
    rw [roOpenStream_of_lookup S hnd p st.content hl]
    simp only [exBind_ok]
    rw [if_pos hb] at h
    rw [if_pos hb]
    cases hf : attrsGet attrs "format" with
    | none => simp [decodeBin, hf] at h
    | some jv =>
      cases jv with
      | str fmt => simp [decodeBin, hf]
      | null => simp [decodeBin, hf] at h
      | boolean b => simp [decodeBin, hf] at h
      | num n => simp [decodeBin, hf] at h
      | nums ns => simp [decodeBin, hf] at h

theorem readField_text_roundtrip (S : WorkState) (hwf : WellFormedWS S)
    (p : List String) (attrs : List (String × JVal)) (v : FieldValue)
    (h : readField (wrRd S) p = .ok (attrs, v))
    (hb : ((attrsGet attrs "binary").getD JVal.null == JVal.boolean true) = false) :
    readField (roRd (zipOf S)) p = .ok (attrs, v) := by
  unfold readField at h ⊢
  rw [wrRd_rdOpen] at h
  rw [roRd_rdOpen]
  cases ho : wrOpenStream S (attrsPath p) with
  | error e =>
    rw [ho, exBind_error] at h
    exact absurd h (by simp)
  | ok st =>
    rw [ho] at h
    simp only [exBind_ok] at h
    obtain ⟨hl, _⟩ := wrOpenStream_ok_elim S (attrsPath p) st ho
    rw [roOpenStream_of_lookup S hwf.1 (attrsPath p) st.content hl]
    simp only [exBind_ok]
    show readFieldWithAttrs (roRd (zipOf S)) p st.content = .ok (attrs, v)
    cases hc : st.content with
    | bytes bs => rw [hc] at h; exact absurd h (by simp [readFieldWithAttrs])
    | text ls => rw [hc] at h; exact absurd h (by simp [readFieldWithAttrs])
    | json attrs2 =>
      rw [hc] at h
      simp only [readFieldWithAttrs] at h ⊢
      cases hv : readFieldValue (wrRd S) attrs2 p with
      | error e =>
        rw [hv, exBind_error] at h
        exact absurd h (by simp)
      | ok v2 =>
        rw [hv] at h
        simp only [exBind_ok] at h
        injection h with h2
        have ha : attrs2 = attrs := congrArg Prod.fst h2
        have hv2 : v2 = v := congrArg Prod.snd h2
        rw [ha, hv2] at hv
        rw [ha]
        rw [readFieldValue_text_transfer S hwf.1 attrs p v hb hv]
        rw [exBind_ok]

theorem readField_binary_ioerror (S : WorkState) (hwf : WellFormedWS S)
    (p : List String) (attrs : List (String × JVal)) (v : FieldValue)
    (h : readField (wrRd S) p = .ok (attrs, v))
    (hb : ((attrsGet attrs "binary").getD JVal.null == JVal.boolean true) = true) :
    readField (roRd (zipOf S)) p = .error .ioError := by
  unfold readField at h ⊢
  rw [wrRd_rdOpen] at h
  rw [roRd_rdOpen]
  cases ho : wrOpenStream S (attrsPath p) with
  | error e =>
    rw [ho, exBind_error] at h
    exact absurd h (by simp)
  | ok st =>
    rw [ho] at h
    simp only [exBind_ok] at h
    obtain ⟨hl, _⟩ := wrOpenStream_ok_elim S (attrsPath p) st ho
    rw [roOpenStream_of_lookup S hwf.1 (attrsPath p) st.content hl]
    simp only [exBind_ok]
    show readFieldWithAttrs (roRd (zipOf S)) p st.content = .error .ioError
    cases hc : st.content with
    | bytes bs => rw [hc] at h; exact absurd h (by simp [readFieldWithAttrs])
    | text ls => rw [hc] at h; exact absurd h (by simp [readFieldWithAttrs])
    | json attrs2 =>
      rw [hc] at h
      simp only [readFieldWithAttrs] at h ⊢
      cases hv : readFieldValue (wrRd S) attrs2 p with
      | error e =>
        rw [hv, exBind_error] at h
        exact absurd h (by simp)
      | ok v2 =>
        rw [hv] at h
        simp only [exBind_ok] at h
        injection h with h2
        have ha : attrs2 = attrs := congrArg Prod.fst h2
        have hv2 : v2 = v := congrArg Prod.snd h2
        rw [ha, hv2] at hv
        rw [ha]
        rw [readFieldValue_binary_ioerror S hwf.1 attrs p v hb hv]
        rw [exBind_error]

/-- A small concrete working directory: root attrs, one group with attrs,
one binary field and one text field, each with its .attrs sibling. -/
def sampleWS : WorkState :=
  [ ([".attrs"], .file (.json [("NX_class", JVal.str "NXroot")])),
    (["entry"], .dir),
    (["entry", ".attrs"], .file (.json [("NX_class", JVal.str "NXentry")])),
    (["entry", "counts"], .file (.bytes [1, 0, 0, 0, 2, 0, 0, 0])),
    (["entry", "counts.attrs"], .file (.json
      [("dtype", JVal.str "int32"), ("shape", JVal.nums [2]),
       ("binary", JVal.boolean true), ("byteorder", JVal.str "little"),
       ("format", JVal.str "<i4")])),
    (["entry", "note"], .file (.text ["7\t8"])),
    (["entry", "note.attrs"], .file (.json
      [("dtype", JVal.str "int32"), ("shape", JVal.nums [2]),
       ("binary", JVal.boolean false), ("byteorder", JVal.str "little"),
       ("format", JVal.str "<i4")])) ]

/-- C1: the round trip fails for binary fields.  On sampleWS the binary
field entry/counts reads back in the write session (root.open hands
numpy.fromfile a real file object), but after packaging and reopening
read-only the same read raises IOError: root.open returns a
zipfile.ZipExtFile and numpy.fromfile demands a real file object.  The
text field and the path set do round trip, as the claim expects, shown
here at the same archive (and in general by readField_text_roundtrip,
roExists_eq and roIsdir_eq). -/
theorem binary_roundtrip_readback_fails :
    readField (wrRd sampleWS) ["entry", "counts"] =
      .ok ([("dtype", JVal.str "int32"), ("shape", JVal.nums [2]),
            ("binary", JVal.boolean true), ("byteorder", JVal.str "little"),
            ("format", JVal.str "<i4")],
           .binItems [[1, 0, 0, 0], [2, 0, 0, 0]]) ∧
    readField (roRd (zipOf sampleWS)) ["entry", "counts"] =
      .error .ioError ∧
    readField (roRd (zipOf sampleWS)) ["entry", "note"] =
      readField (wrRd sampleWS) ["entry", "note"] ∧
    (∀ p, roExists (zipOf sampleWS) p = wrExists sampleWS p) ∧
    (∀ p, roIsdir (zipOf sampleWS) p = wrIsdir sampleWS p) := by
  refine ⟨rfl, rfl, rfl, fun p => roExists_eq sampleWS p (by decide),
    fun p => roIsdir_eq sampleWS p (by decide)⟩

/-- The two backend predicates Node.__getitem__ consults, abstracted over
the session mode (write: filesystem; readonly: archive namelist). -/
structure Backend where
  existsPath : List String → Bool
  isdir : List String → Bool

/-- The write-mode backend of ReadWriteFile. -/
def wrBackend (S : WorkState) : Backend := ⟨wrExists S, wrIsdir S⟩

/-- The readonly backend of ReadWriteFile over a packed archive. -/
def roBackend (Z : List ZipEntry) : Backend := ⟨roExists Z, roIsdir Z⟩

/-- The link sentinel path of a node path: the path string plus the .link
suffix appended to the last component. -/
def linkSentinel (p : List String) : List String :=
  p.dropLast ++ [p.getLastD "" ++ ".link"]

/-- The result kind of a Node.__getitem__ lookup. -/
inductive Lookup where
  | group : Lookup
  | link : Lookup
  | field : Lookup
  | pathNotFound : Lookup
  deriving Repr, DecidableEq

/-- Node.__getitem__ (hzf_readonly.py lines 76-101): when the full path
exists, a directory resolves to a Group, else a present link sentinel
resolves to a FieldLink, else a FieldFile; when the full path does not
exist the lookup raises KeyError, the PathNotFound of the spec. -/
def getitem (b : Backend) (p : List String) : Lookup :=
  if b.existsPath p then
    if b.isdir p then .group
    else if b.existsPath (linkSentinel p) then .link
    else .field
  else .pathNotFound

/-- A working directory holding a link sentinel file at entry/alias.link
without any node at entry/alias itself. -/
def sentinelOnlyWS : WorkState :=
  [(["entry"], .dir),
   (["entry", "alias.link"],
     .file (.json [("target", JVal.str "/entry/source")]))]

/-- C5 counterexample: the claim says a lookup at a path whose link sentinel
exists returns a Link.  The code checks the existence of the path itself
first, so a sentinel without the path yields KeyError, not a Link. -/
theorem getitem_sentinel_only_not_found :
    wrExists sentinelOnlyWS (linkSentinel ["entry", "alias"]) = true ∧
    getitem (wrBackend sentinelOnlyWS) ["entry", "alias"] = .pathNotFound := by
  constructor
  · rfl
  · rfl

/-- C5 (amended): path resolution returns a Group exactly on directories;
a Link exactly when the path itself exists, is no directory and its link
sentinel exists; a Field exactly when the path exists, is no directory and
no sentinel exists; and PathNotFound exactly when the path itself does not
exist, even when only the link sentinel exists. -/
theorem getitem_resolution (b : Backend) (p : List String) :
    (getitem b p = .group ↔ b.existsPath p = true ∧ b.isdir p = true) ∧
    (getitem b p = .link ↔
      b.existsPath p = true ∧ b.isdir p = false ∧
        b.existsPath (linkSentinel p) = true) ∧
    (getitem b p = .field ↔
      b.existsPath p = true ∧ b.isdir p = false ∧
        b.existsPath (linkSentinel p) = false) ∧
    (getitem b p = .pathNotFound ↔ b.existsPath p = false) := by
  unfold getitem
  cases he : b.existsPath p <;> cases hd : b.isdir p <;>
    cases hs : b.existsPath (linkSentinel p) <;> simp

/-- ReadWriteFile.listdir in readonly mode (hzf_readonly.py line 186): the
basenames of the namelist entries whose dirname equals the queried path. -/
def roListdir (Z : List ZipEntry) (q : List String) : List String :=
  Z.filterMap (fun z =>
    if z.path.dropLast == q then some (z.path.getLastD "") else none)

/-- Node.__delitem__ (hzf_readonly.py lines 62-74) in a readonly session:
there is no readonly guard; the loop body references the undefined name
parent_os_path, so the call raises NameError as soon as the parent listing
is nonempty, and silently does nothing when it is empty.  The guarded
ReadOnlyNode.__delitem__ is unreachable: the File factory returns
ReadWriteFile for every mode. -/
def roDelItem (Z : List ZipEntry) (p : List String) : Except PyErr Unit :=
  if roListdir Z p.dropLast = [] then .ok ()
  else .error (.nameError "parent_os_path")

/-- In a readonly session Node.makeAttrs returns the plain dict produced by
json.loads (hzf_readonly.py lines 31-32), so setting an attribute key is an
ordinary in-memory dict assignment: it succeeds without any error and never
touches the archive. -/
def roAttrsSet (attrs : List (String × JVal)) (k : String) (v : JVal) :
    Except PyErr (List (String × JVal)) :=
  .ok (setKey attrs k v)

/-- FieldFile.__init__ in a readonly session at a fresh path: makeAttrs
opens the missing .attrs archive member and ZipFile.open raises KeyError
(hzf_readonly.py lines 364-367), before any readonly consideration. -/
def roCreateField (Z : List ZipEntry) (p : List String) :
    Except PyErr (List (String × JVal)) :=
  match roOpenRead Z (attrsPath p) with
  | .ok (.json a) => .ok a
  | .ok _ => .error (.typeError "json.loads needs a JSON document")
  | .error e => .error e

/-- The readonly guard of the FieldFile value setter, append and extend
(hzf_readonly.py lines 448, 473, 494; the source message reads "can't"
where this model writes "cannot"). -/
def readonlyGuard (readonly : Bool) (msg : String) : Except PyErr Unit :=
  if readonly then .error (.standardError msg) else .ok ()

/-- C3: read-only enforcement is not what the claim states.  On a packed
archive opened read-only, setting an attribute succeeds silently on the
in-memory dict (no ReadOnlyViolation), deleting raises NameError from the
undefined parent_os_path (not ReadOnlyViolation), and creating a field
fails with KeyError for the missing .attrs member (not ReadOnlyViolation);
only the value setter, append and extend raise the read-only error. -/
theorem readonly_enforcement_gaps :
    roAttrsSet [("NX_class", JVal.str "NXroot")] "x" (JVal.num 1) =
      .ok (setKey [("NX_class", JVal.str "NXroot")] "x" (JVal.num 1)) ∧
    roDelItem (zipOf sampleWS) ["entry", "counts"] =
      .error (.nameError "parent_os_path") ∧
    roCreateField (zipOf sampleWS) ["entry", "fresh"] =
      .error (.keyError (joinPath (attrsPath ["entry", "fresh"]))) ∧
    readonlyGuard true "cannot set value in readonly mode" =
      .error (.standardError "cannot set value in readonly mode") := by
  refine ⟨rfl, ?_, rfl, rfl⟩
  rfl

/-- StaticDictWrapper.__setitem__ (hzf_readonly.py lines 562-566): a key
present in the static dict raises the static-key KeyError, any other key is
written through to the wrapped dict.  The wrapper is defined but never
instantiated anywhere in the engine. -/
def staticSetItem (wrapped staticDict : List (String × JVal)) (k : String)
    (v : JVal) : Except PyErr (List (String × JVal)) :=
  if (lookupKey staticDict k).isSome then .error (.keyError "static key")
  else .ok (setKey wrapped k v)

/-- The class-level attribute names visible on a FieldLink instance (from
the FieldLink and FieldFile class bodies); root is not among them, it is an
instance attribute assigned only inside FieldFile.__init__. -/
def fieldLinkClassAttrs : List String :=
  ["_formats", "_attrs_suffix", "makeAttrs", "shape", "dtype", "name",
   "parent", "value", "_write_data", "append", "extend"]

/-- Python attribute lookup: instance attributes first, then the class
namespace; an absent name raises AttributeError. -/
def pyGetAttr (instanceAttrs classAttrs : List String) (a : String) :
    Except PyErr Unit :=
  if instanceAttrs.contains a || classAttrs.contains a then .ok ()
  else .error (.attributeError a)

/-- FieldLink.__init__ (hzf_readonly.py lines 512-517): after normalizing
the path and storing orig_path (the only instance attribute so far), line
517 evaluates self.root.open(...), but root is assigned only later, inside
the FieldFile.__init__ call of line 525, so the attribute lookup fails. -/
def fieldLinkInitFirstSteps (path : List String) : Except PyErr (List String) :=
  let origPath := path
  let instanceAttrs := ["orig_path"]
  match pyGetAttr instanceAttrs fieldLinkClassAttrs "root" with
  | .error e => .error e
  | .ok _ => .ok (origPath ++ instanceAttrs)

/-- C8: every FieldLink construction fails with AttributeError on root
before any attribute of the link can be read or written, so the claimed
static-key protection never engages; the StaticDictWrapper that implements
exactly the claimed semantics (overwriting a static key raises, a fresh key
is written through) is never attached to any link. -/
theorem fieldlink_init_attribute_error :
    fieldLinkInitFirstSteps ["entry", "DAS_logs", "alias"] =
      .error (.attributeError "root") ∧
    staticSetItem [("units", JVal.str "s")]
        [("target", JVal.str "/entry/source")] "target"
        (JVal.str "/elsewhere") = .error (.keyError "static key") ∧
    staticSetItem [("units", JVal.str "s")]
        [("target", JVal.str "/entry/source")] "note" (JVal.str "x") =
      .ok (setKey [("units", JVal.str "s")] "note" (JVal.str "x")) := by
  refine ⟨rfl, rfl, rfl⟩

/-- A filesystem tree as the archive packager walks it: regular files with
their bytes, symbolic links with their target string, and directories with
named children. -/
inductive FTree where
  | reg (content : List Nat) : FTree
  | symlink (target : String) : FTree
  | branch (children : List (String × FTree)) : FTree

/-- One entry written by the packager: the relative path, the directory
flag (a trailing-slash name in the archive), the external attributes word,
and the payload bytes. -/
structure PkgEntry where
  name : List String
  isDir : Bool
  externalAttr : Nat
  payload : List Nat

/-- The external-attributes word write_item stores for a symbolic link
(hzf_readonly.py lines 590-597): the permission bits 0755 shifted into the
high half, or-ed with the symlink file-type bits 0120000 shifted equally. -/
def symlinkAttr : Nat := (0o755 <<< 16) ||| (0o120000 <<< 16)

/-- The external attributes of an ordinary write of a regular file. -/
def regAttr : Nat := 0o644 <<< 16

/-- The external attributes of a directory entry. -/
def dirAttr : Nat := 0o755 <<< 16

/-- The bytes of the link target string written as the entry content. -/
def strBytes (s : String) : List Nat := s.toList.map Char.toNat

/-- write_item for the node found at relpath: a symbolic link becomes an
entry carrying the symlink attributes whose content is the readlink target
(not the resolved file); a regular file is written with its bytes at its
relative path; a directory is written explicitly as a directory entry. -/
def writeItem (relpath : List String) : FTree → List PkgEntry
  | .symlink t => [⟨relpath, false, symlinkAttr, strBytes t⟩]
  | .reg bs => [⟨relpath, false, regAttr, bs⟩]
  | .branch _ => [⟨relpath, true, dirAttr, []⟩]

mutual

/-- The os.walk of make_zipfile under one directory node: every child is
written through write_item and every non-symlink subdirectory is descended
into (os.walk does not follow symbolic links). -/
def walkTree (relpath : List String) : FTree → List PkgEntry
  | .reg _ => []
  | .symlink _ => []
  | .branch cs => walkChildren relpath cs

def walkChildren (relpath : List String) :
    List (String × FTree) → List PkgEntry
  | [] => []
  | (n, t) :: rest =>
    writeItem (relpath ++ [n]) t ++ walkTree (relpath ++ [n]) t ++
      walkChildren relpath rest

end

/-- make_zipfile (hzf_readonly.py lines 631-644): walk the source directory
and write every directory and file (the source directory itself gets no
entry). -/
def makeZip (t : FTree) : List PkgEntry := walkTree [] t

/-- Locate the node at a path, descending only through directories (the
walk never descends through a symlink). -/
def findNode : FTree → List String → Option FTree
  | t, [] => some t
  | .branch cs, n :: rest =>
    match cs.lookup n with
    | some t' => findNode t' rest
    | none => none
  | _, _ :: _ => none

theorem walkChildren_sub (relpath : List String)
    (cs : List (String × FTree)) (n : String) (t : FTree)
    (h : cs.lookup n = some t) (z : PkgEntry)
    (hz : z ∈ writeItem (relpath ++ [n]) t ∨ z ∈ walkTree (relpath ++ [n]) t) :
    z ∈ walkChildren relpath cs := by
  induction cs with
  | nil => exact absurd h (by simp)
  | cons hd tl ih =>
    obtain ⟨n', t'⟩ := hd
    by_cases hn : n' = n
    · subst hn
      have ht : t' = t := by simpa [List.lookup] using h
      subst ht
      rcases hz with hz | hz
      · exact List.mem_append_left _ (List.mem_append_left _ hz)
      · exact List.mem_append_left _ (List.mem_append_right _ hz)
    · have hnn : (n == n') = false :=
        beq_eq_false_iff_ne.mpr (fun e => hn e.symm)
      have h' : tl.lookup n = some t := by
        simpa [List.lookup, hnn] using h
      exact List.mem_append_right _ (ih h')

theorem walk_covers (p : List String) : ∀ (t : FTree) (rel : List String)
    (node : FTree), p ≠ [] → findNode t p = some node →
    ∀ z ∈ writeItem (rel ++ p) node, z ∈ walkTree rel t := by
  induction p with
  | nil => intro t rel node hp; exact absurd rfl hp
  | cons n rest ih =>
    intro t rel node _ hfind z hz
    cases t with
    | reg bs => exact absurd hfind (by simp [findNode])
    | symlink tg => exact absurd hfind (by simp [findNode])
    | branch cs =>
      unfold findNode at hfind
      cases hl : cs.lookup n with
      | none => rw [hl] at hfind; exact absurd hfind (by simp)
      | some t' =>
        rw [hl] at hfind
        cases rest with
        | nil =>
          have hnode : t' = node := by
            simpa [findNode] using hfind
          exact walkChildren_sub rel cs n t' hl z
            (Or.inl (by rw [hnode]; simpa using hz))
        | cons r1 rs =>
          have hz' : z ∈ walkTree (rel ++ [n]) t' := by
            have := ih t' (rel ++ [n]) node (by simp) hfind z
            simp only [List.append_assoc] at this ⊢
            exact this (by simpa using hz)
          exact walkChildren_sub rel cs n t' hl z (Or.inr hz')

/-- C9: for every node of the packaged working directory (located at a
nonempty relative path reached through directories), the archive holds the
entry write_item produces: a symbolic link becomes an entry at its relative
path whose external attributes carry the symlink file-type bits and whose
payload is the target string (not the resolved content); a regular file
becomes an entry at its relative path with its bytes; and every directory,
including an empty one, is written explicitly as a directory entry. -/
theorem packager_preserves_entries (t : FTree) (p : List String)
    (node : FTree) (hp : p ≠ []) (h : findNode t p = some node) :
    (∀ tg, node = .symlink tg →
      (⟨p, false, symlinkAttr, strBytes tg⟩ : PkgEntry) ∈ makeZip t ∧
        symlinkAttr &&& (0o170000 <<< 16) = 0o120000 <<< 16) ∧
    (∀ bs, node = .reg bs →
      (⟨p, false, regAttr, bs⟩ : PkgEntry) ∈ makeZip t) ∧
    (∀ cs, node = .branch cs →
      (⟨p, true, dirAttr, []⟩ : PkgEntry) ∈ makeZip t) := by
  refine ⟨?_, ?_, ?_⟩
  · intro tg hnode
    subst hnode
    refine ⟨?_, by decide⟩
    have := walk_covers p t [] (.symlink tg) hp h
      ⟨p, false, symlinkAttr, strBytes tg⟩ (by simp [writeItem])
    simpa [makeZip] using this
  · intro bs hnode
    subst hnode
    have := walk_covers p t [] (.reg bs) hp h
      ⟨p, false, regAttr, bs⟩ (by simp [writeItem])
    simpa [makeZip] using this
  · intro cs hnode
    subst hnode
    have := walk_covers p t [] (.branch cs) hp h
      ⟨p, true, dirAttr, []⟩ (by simp [writeItem])
    simpa [makeZip] using this

/-- A working directory holding a regular file, a symbolic link beside it,
and an empty directory. -/
def sampleTree : FTree :=
  .branch [("data", .branch
    [("raw", .reg [104, 105]),
     ("alias", .symlink "raw"),
     ("empty", .branch [])])]

/-- Witness for packager_preserves_entries at the symbolic link of
sampleTree; its entry carries the symlink type bits and the target string,
and the empty directory gets its own entry. -/
theorem packager_preserves_entries_witness :
    (["data", "alias"] : List String) ≠ [] ∧
    findNode sampleTree ["data", "alias"] = some (.symlink "raw") ∧
    ((∀ tg, (FTree.symlink "raw") = .symlink tg →
      (⟨["data", "alias"], false, symlinkAttr, strBytes tg⟩ : PkgEntry) ∈
        makeZip sampleTree ∧
        symlinkAttr &&& (0o170000 <<< 16) = 0o120000 <<< 16) ∧
    (∀ bs, (FTree.symlink "raw") = .reg bs →
      (⟨["data", "alias"], false, regAttr, bs⟩ : PkgEntry) ∈
        makeZip sampleTree) ∧
    (∀ cs, (FTree.symlink "raw") = .branch cs →
      (⟨["data", "alias"], true, dirAttr, []⟩ : PkgEntry) ∈
        makeZip sampleTree)) :=
  ⟨by simp, rfl,
    packager_preserves_entries sampleTree ["data", "alias"]
      (.symlink "raw") (by simp) rfl⟩

end NexusZip
